import Mathlib

/-!
# Verification of the gpxhydrant reconciliation core

Shallow embedding of the gpxhydrant tool (Go): waypoint decoding,
remote-node decoding, proximity matching, the reconciliation loop and the
lazy changeset coordinator, together with theorems about them.

Conventions: Go `int64` fields become `Int` (range side conditions are
stated where a value's `int64` bound matters); Go `float64` coordinates
and distances become `ℚ`; Go maps keyed by string become total functions
returning `""` for a missing key (Go's zero value); fallible Go functions
returning `(T, error)` become `Except`/`Option` values.
-/

namespace osm

/-- Embeds `osm.Tag` (src/osm/osm.go): a key/value string pair. -/
structure Tag where
  Key : String
  Value : String
deriving DecidableEq, Repr

/-- Embeds `osm.Node` (src/osm/osm.go): a point entity with identity,
version, changeset association, coordinates and a tag list. -/
structure Node where
  ID : Int
  Version : Int
  Changeset : Int
  User : String
  UID : Int
  Latitude : ℚ
  Longitude : ℚ
  Tags : List Tag
deriving DecidableEq, Repr

/-- Embeds `osm.Changeset` (src/osm/osm.go), restricted to the fields the
tool reads or writes: identity and the annotation tag list. -/
structure Changeset where
  ID : Int
  Tags : List Tag
deriving DecidableEq, Repr

/-- The request path chosen by `osm.Client.SaveNode`: `/node/create` for a
fresh node, `/node/<id>` for an update of an existing node. -/
inductive SavePath where
  | createNode
  | updateNode (id : Int)
deriving DecidableEq, Repr

end osm

/-! ## Decimal integer formatting and parsing

Embeds the `strconv.FormatInt(_, 10)` / `strconv.ParseInt(_, 10, 64)`
calls of hydrant.go.  Go's `ParseInt` with base 10 and bit size 64 accepts
an optional sign followed by one or more ASCII digits and rejects values
outside the `int64` range; failures are modelled as `none`. -/

/-- Lowest `int64` value accepted by `strconv.ParseInt(_, 10, 64)`. -/
def int64Min : Int := -(2 ^ 63)

/-- Highest `int64` value accepted by `strconv.ParseInt(_, 10, 64)`. -/
def int64Max : Int := 2 ^ 63 - 1

/-- Horner evaluation of a run of ASCII digits, most significant first
(the accumulation `ParseInt` performs on the digit run). -/
def digitsVal (l : List Char) : Nat :=
  l.foldl (fun a c => a * 10 + (c.toNat - 48)) 0

/-- Parse an unsigned run of ASCII digits: at least one digit, digits
only.  Mirrors the digit-run loop of Go `strconv.ParseUint`. -/
def parseNatDigits (l : List Char) : Option Nat :=
  if l ≠ [] ∧ ∀ c ∈ l, c.isDigit then some (digitsVal l) else none

/-- Positive branch of `strconv.ParseInt`: digit run, `int64` upper bound. -/
def parseIntPos (l : List Char) : Option Int :=
  (parseNatDigits l).bind fun n =>
    if (n : Int) ≤ int64Max then some (n : Int) else none

/-- Negative branch of `strconv.ParseInt`: digit run, `int64` lower bound. -/
def parseIntNeg (l : List Char) : Option Int :=
  (parseNatDigits l).bind fun n =>
    if int64Min ≤ -(n : Int) then some (-(n : Int)) else none

/-- Embeds `strconv.ParseInt(s, 10, 64)`: optional sign, digit run,
`int64` range check.  `none` is Go's non-nil error. -/
def parseInt (s : String) : Option Int :=
  match s.data with
  | [] => none
  | c :: rest =>
      if c = '+' then parseIntPos rest
      else if c = '-' then parseIntNeg rest
      else parseIntPos (c :: rest)

/-- ASCII digit character for a digit value. -/
def digitChar (d : Nat) : Char := Char.ofNat (48 + d)

/-- Decimal digit characters of `n`, most significant first, `"0"` for 0
(as `strconv.FormatInt` prints). -/
def natToChars (n : Nat) : List Char :=
  if n = 0 then ['0'] else (Nat.digits 10 n).reverse.map digitChar

/-- Embeds `strconv.FormatInt(i, 10)`. -/
def formatInt (i : Int) : String :=
  if i < 0 then ⟨'-' :: natToChars i.natAbs⟩ else ⟨natToChars i.toNat⟩

theorem digitChar_isDigit {d : Nat} (h : d < 10) : (digitChar d).isDigit := by
  interval_cases d <;> decide

theorem natToChars_ne_nil (n : Nat) : natToChars n ≠ [] := by
  unfold natToChars
  split
  · simp
  · next h =>
    have : Nat.digits 10 n ≠ [] := Nat.digits_ne_nil_iff_ne_zero.mpr h
    simp [this]

theorem natToChars_all_digits (n : Nat) : ∀ c ∈ natToChars n, c.isDigit := by
  unfold natToChars
  split
  · intro c hc; simp at hc; subst hc; decide
  · intro c hc
    simp only [List.mem_map, List.mem_reverse] at hc
    obtain ⟨d, hd, rfl⟩ := hc
    exact digitChar_isDigit (Nat.digits_lt_base (by norm_num) hd)

theorem digitsVal_append_single (l : List Char) (c : Char) :
    digitsVal (l ++ [c]) = digitsVal l * 10 + (c.toNat - 48) := by
  simp [digitsVal, List.foldl_append]

theorem digitsVal_digits (n : Nat) :
    digitsVal ((Nat.digits 10 n).reverse.map digitChar) = n := by
  induction n using Nat.strong_induction_on with
  | _ n ih =>
    rcases Nat.eq_zero_or_pos n with rfl | hpos
    · simp [digitsVal]
    · rw [Nat.digits_def' (b := 10) (by norm_num) hpos]
      simp only [List.reverse_cons, List.map_append, List.map_cons, List.map_nil]
      rw [digitsVal_append_single]
      have hmod : n % 10 < 10 := Nat.mod_lt _ (by norm_num)
      have hchar : (digitChar (n % 10)).toNat - 48 = n % 10 := by
        set d := n % 10 with hd
        interval_cases d <;> decide
      have hlt : n / 10 < n := Nat.div_lt_self hpos (by norm_num)
      rw [hchar, ih (n / 10) hlt]
      omega

theorem digitsVal_natToChars (n : Nat) : digitsVal (natToChars n) = n := by
  unfold natToChars
  split
  · next h => subst h; simp [digitsVal]
  · exact digitsVal_digits n

/-- Round trip: formatting a natural number and re-parsing its digit run
recovers the number. -/
theorem parseNatDigits_natToChars (n : Nat) :
    parseNatDigits (natToChars n) = some n := by
  unfold parseNatDigits
  rw [if_pos ⟨natToChars_ne_nil n, natToChars_all_digits n⟩, digitsVal_natToChars]

theorem parseInt_mk (c : Char) (rest : List Char) :
    parseInt ⟨c :: rest⟩ =
      if c = '+' then parseIntPos rest
      else if c = '-' then parseIntNeg rest
      else parseIntPos (c :: rest) := rfl

/-- Round trip of `formatInt` and `parseInt` on the `int64` range. -/
theorem parseInt_formatInt (i : Int) (hlo : int64Min ≤ i) (hhi : i ≤ int64Max) :
    parseInt (formatInt i) = some i := by
  unfold formatInt
  split
  · next hneg =>
    rw [parseInt_mk, if_neg (by decide), if_pos rfl]
    unfold parseIntNeg
    rw [parseNatDigits_natToChars]
    have habs : ((i.natAbs : Int)) = -i := Int.ofNat_natAbs_of_nonpos (le_of_lt hneg)
    simp only [Option.some_bind, habs, neg_neg]
    rw [if_pos (by omega)]
  · next hpos =>
    have hpos' : 0 ≤ i := not_lt.mp hpos
    obtain ⟨c, cs, hcons⟩ := List.exists_cons_of_ne_nil (natToChars_ne_nil i.toNat)
    have hcdig : c.isDigit := by
      have := natToChars_all_digits i.toNat
      rw [hcons] at this
      exact this c (by simp)
    rw [hcons, parseInt_mk,
        if_neg (by intro h; subst h; simp [Char.isDigit] at hcdig),
        if_neg (by intro h; subst h; simp [Char.isDigit] at hcdig)]
    unfold parseIntPos
    rw [← hcons, parseNatDigits_natToChars]
    simp only [Option.some_bind]
    rw [if_pos (by omega), Int.toNat_of_nonneg hpos']

/-! ## The hydrant data model (src/hydrant.go) -/

/-- Embeds the `hydrant` struct (src/hydrant.go): merged view of a
physical hydrant regardless of source. -/
structure hydrant where
  ID : Int
  Name : String
  Latitude : ℚ
  Longitude : ℚ
  Diameter : Int
  Position : String
  Pressure : Int
  «Type» : String
  Version : Int
deriving DecidableEq, Repr

/-- Embeds `gpx.Waypoint` (gpx package), restricted to the fields
`parseWaypoint` reads. -/
structure Waypoint where
  Latitude : ℚ
  Longitude : ℚ
  Name : String
  Comment : String
deriving DecidableEq, Repr

/-- The run-wide configuration fields the reconciliation core reads
(global `cfg`, src/unnamed/part_002). -/
structure Config where
  MachRange : Int
  NoOp : Bool
  Pressure : Int
deriving DecidableEq, Repr

/-- Round-half-to-even on ℚ (the rounding `strconv.FormatFloat` applies
to a decimal digit string). -/
def roundHalfEven (x : ℚ) : Int :=
  let f : Int := ⌊x⌋
  if x - f < 1 / 2 then f
  else if x - f > 1 / 2 then f + 1
  else if f % 2 = 0 then f else f + 1

/-- Embeds `roundPrec` (src/unnamed/part_002): reduce to `nd` digits
after the decimal point via decimal formatting and re-parsing. -/
def roundPrec (x : ℚ) (nd : Nat) : ℚ :=
  (roundHalfEven (x * 10 ^ nd) : ℚ) / 10 ^ nd

/-- Embeds the `hydrantPositions` lookup table (src/hydrant.go); a
missing key yields Go's zero value `""`. -/
def hydrantPositions (s : String) : String :=
  match s with
  | "S" => "sidewalk"
  | "P" => "parking_lot"
  | "L" => "lane"
  | "G" => "green"
  | _ => ""

/-- Embeds the `hydrantTypes` lookup table (src/hydrant.go); a missing
key yields Go's zero value `""`. -/
def hydrantTypes (s : String) : String :=
  match s with
  | "U" => "underground"
  | "O" => "pillar"
  | "W" => "wall"
  | "P" => "pond"
  | _ => ""

/-! ## The comment-code matcher

Embeds the regular expression `([SPLG])([UOWP])(\?|[0-9]{2,3})` together
with Go's leftmost-first `FindStringSubmatch` semantics: scan start
positions left to right; at a start position the third group prefers the
literal `?`, and the greedy `{2,3}` takes a third digit when present. -/

/-- First-group alphabet `[SPLG]`. -/
def isPosChar (c : Char) : Bool := c = 'S' || c = 'P' || c = 'L' || c = 'G'

/-- Second-group alphabet `[UOWP]`. -/
def isTypChar (c : Char) : Bool := c = 'U' || c = 'O' || c = 'W' || c = 'P'

/-- Match the third group `(\?|[0-9]{2,3})` at the head of `rest`, the
two letters `a`, `b` already matched: the literal `?` alternative is
preferred, and the greedy `{2,3}` takes a third digit when present. -/
def matchTail (a b : Char) (rest : List Char) : Option (String × String × String) :=
  match rest with
  | [] => none
  | c :: rest1 =>
      if c = '?' then some (⟨[a]⟩, ⟨[b]⟩, "?")
      else if c.isDigit then
        match rest1 with
        | [] => none
        | d2 :: rest2 =>
            if d2.isDigit then
              match rest2 with
              | [] => some (⟨[a]⟩, ⟨[b]⟩, ⟨[c, d2]⟩)
              | d3 :: _ =>
                  if d3.isDigit then some (⟨[a]⟩, ⟨[b]⟩, ⟨[c, d2, d3]⟩)
                  else some (⟨[a]⟩, ⟨[b]⟩, ⟨[c, d2]⟩)
            else none
      else none

/-- Try to match the code pattern anchored at the head of `l`, returning
the three submatches (as strings, like `FindStringSubmatch`). -/
def matchCodeAt (l : List Char) : Option (String × String × String) :=
  match l with
  | a :: b :: rest =>
      if isPosChar a && isTypChar b then matchTail a b rest else none
  | _ => none

/-- Leftmost match of the code pattern: the submatches
`FindStringSubmatch` returns, `none` when `MatchString` is false. -/
def findCode : List Char → Option (String × String × String)
  | [] => none
  | c :: rest =>
      match matchCodeAt (c :: rest) with
      | some r => some r
      | none => findCode rest

/-- The spec-side reading of "the comment contains the code": some
decomposition places a position letter, a type letter, and then either a
`?` or two decimal digits. -/
def hasCode (l : List Char) : Prop :=
  ∃ pre a b rest, l = pre ++ a :: b :: rest ∧ isPosChar a ∧ isTypChar b ∧
    ((∃ r', rest = '?' :: r') ∨
     (∃ d1 d2 r2, rest = d1 :: d2 :: r2 ∧ d1.isDigit ∧ d2.isDigit))

/-! ## Waypoint and node decoding, node encoding (src/hydrant.go) -/

/-- The failure conditions of the two decoders: the dedicated
"wrong GPX comment" value `errWrongGPXComment`, a `strconv.ParseInt`
error carrying the offending string, and the missing
`emergency=fire_hydrant` tag error of `fromNode`. -/
inductive HydrantError where
  | wrongGPXComment
  | intParseError (s : String)
  | notAFireHydrant
deriving DecidableEq, Repr

/-- The hydrant `parseWaypoint` builds before the diameter is filled in:
identity unset, coordinates rounded to 7 digits, pressure from the
configuration, position and type from the lookup tables. -/
def waypointHydrant (cfg : Config) (wp : Waypoint) (m1 m2 : String) : hydrant :=
  { ID := 0, Version := 0
    Name := wp.Name
    Latitude := roundPrec wp.Latitude 7
    Longitude := roundPrec wp.Longitude 7
    Pressure := cfg.Pressure
    Position := hydrantPositions m1
    «Type» := hydrantTypes m2
    Diameter := 0 }

/-- Embeds `parseWaypoint` (src/hydrant.go). -/
def parseWaypoint (cfg : Config) (wp : Waypoint) : Except HydrantError hydrant :=
  match findCode wp.Comment.data with
  | none => .error .wrongGPXComment
  | some (m1, m2, m3) =>
      if m3 = "?" then .ok (waypointHydrant cfg wp m1 m2)
      else
        match parseInt m3 with
        | none => .error (.intParseError m3)
        | some d => .ok { waypointHydrant cfg wp m1 m2 with Diameter := d }

/-- The tag-scanning loop of `fromNode` (src/hydrant.go): thread the
partially filled hydrant and the `validFireHydrant` flag through the tag
list, propagating `ParseInt` failures. -/
def fromNodeTags : List osm.Tag → hydrant → Bool →
    Except HydrantError (hydrant × Bool)
  | [], h, valid => .ok (h, valid)
  | t :: rest, h, valid =>
      if t.Key = "emergency" then
        fromNodeTags rest h (t.Value == "fire_hydrant")
      else if t.Key = "fire_hydrant:diameter" then
        match parseInt t.Value with
        | none => .error (.intParseError t.Value)
        | some d => fromNodeTags rest { h with Diameter := d } valid
      else if t.Key = "fire_hydrant:position" then
        fromNodeTags rest { h with Position := t.Value } valid
      else if t.Key = "fire_hydrant:pressure" then
        match parseInt t.Value with
        | none => .error (.intParseError t.Value)
        | some p => fromNodeTags rest { h with Pressure := p } valid
      else if t.Key = "fire_hydrant:type" then
        fromNodeTags rest { h with «Type» := t.Value } valid
      else
        fromNodeTags rest h valid

/-- The hydrant `fromNode` starts from: remote identity and coordinates
copied, attributes zeroed. -/
def nodeHydrant (n : osm.Node) : hydrant :=
  { ID := n.ID, Version := n.Version
    Latitude := n.Latitude, Longitude := n.Longitude
    Name := "", Diameter := 0, Position := "", Pressure := 0, «Type» := "" }

/-- Embeds `fromNode` (src/hydrant.go). -/
def fromNode (n : osm.Node) : Except HydrantError hydrant :=
  match fromNodeTags n.Tags (nodeHydrant n) false with
  | .error e => .error e
  | .ok (h, valid) => if valid then .ok h else .error .notAFireHydrant

/-- Embeds `hydrant.ToNode` (src/hydrant.go): the full replacement tag
set, with the diameter tag emitted only for a positive diameter. -/
def hydrant.ToNode (h : hydrant) : osm.Node :=
  { ID := h.ID, Version := h.Version, Changeset := 0, User := "", UID := 0
    Latitude := h.Latitude, Longitude := h.Longitude
    Tags :=
      [⟨"emergency", "fire_hydrant"⟩] ++
      (if h.Diameter > 0 then [⟨"fire_hydrant:diameter", formatInt h.Diameter⟩] else []) ++
      [⟨"fire_hydrant:position", h.Position⟩,
       ⟨"fire_hydrant:pressure", formatInt h.Pressure⟩,
       ⟨"fire_hydrant:type", h.«Type»⟩] }

/-- Embeds `hydrant.NeedsUpdate` (src/hydrant.go): attribute sets differ
in diameter, position, pressure or type. -/
def hydrant.NeedsUpdate (h other : hydrant) : Bool :=
  h.Diameter != other.Diameter || h.Position != other.Position ||
  h.Pressure != other.Pressure || h.«Type» != other.«Type»

/-! ## SaveNode (src/osm/osm.go)

`SaveNode` either rejects the node before any request (id set but version
missing) or issues exactly one PUT; the success value records the chosen
request path and the node as sent (with its changeset association set).
Transport is an external collaborator, so the PUT itself is represented
by that success value. -/

/-- Embeds `osm.Client.SaveNode` (src/osm/osm.go). -/
def osm.SaveNode (n : osm.Node) (cs : osm.Changeset) :
    Except String (osm.SavePath × osm.Node) :=
  if n.ID > 0 ∧ n.Version = 0 then
    .error "When an ID is set the version must be present"
  else
    let urlPath := if n.ID > 0 then osm.SavePath.updateNode n.ID
                   else osm.SavePath.createNode
    .ok (urlPath, { n with Changeset := cs.ID })

/-! ## The reconciliation loop (src/unnamed/part_002)

`updateOrCreateHydrants` iterates over the local hydrants; for each it
scans all remote hydrants keeping the last one within the match range,
then creates, updates or skips.  The global mutable `changeset` variable
and the counts of remote mutating calls are threaded as explicit state.

The haversine distance is a `float64` computation from an external
helper package; it enters the model as an abstract distance function
`dist` in the environment, so every theorem below holds for any distance
function, including the real haversine. -/

/-- The fixed collaborators of one run: configuration, the distance
function and the changeset id the remote API would assign. -/
structure Env where
  cfg : Config
  dist : hydrant → hydrant → ℚ
  freshCsID : Int

/-- The mutable state of one run: the global `changeset` variable plus
counters/records of the remote mutating calls issued so far. -/
structure RunState where
  changeset : Option osm.Changeset
  createChangesetCalls : Nat
  saveChangesetCalls : Nat
  savedNodes : List (osm.Node × Int)
  noopMessages : Nat
deriving DecidableEq, Repr

/-- The state at process start: no changeset, no calls made. -/
def initState : RunState :=
  { changeset := none, createChangesetCalls := 0, saveChangesetCalls := 0
    savedNodes := [], noopMessages := 0 }

/-- Embeds `createChangeset` (src/unnamed/part_002): return the cached
changeset, or create one via the API (one `CreateChangeset` call), tag it
`created_by` and persist the annotation (one `SaveChangeset` call). -/
def createChangeset (env : Env) (st : RunState) : osm.Changeset × RunState :=
  match st.changeset with
  | some cs => (cs, st)
  | none =>
      let cs : osm.Changeset :=
        { ID := env.freshCsID
          Tags := [⟨"created_by", "gpxhydrant dev"⟩] }
      (cs, { st with
              changeset := some cs
              createChangesetCalls := st.createChangesetCalls + 1
              saveChangesetCalls := st.saveChangesetCalls + 1 })

/-- One `doNoOp`-wrapped write (src/unnamed/part_002).  Go evaluates the
message argument of `doNoOp` before the call, so `createChangeset` runs
even in noop mode; the execution closure then either becomes a logged
message (noop) or a `SaveNode` call, which re-requests the (now cached)
changeset and sends the node with its changeset association set. -/
def sendNode (env : Env) (h : hydrant) (st : RunState) : RunState :=
  let r1 := createChangeset env st
  if env.cfg.NoOp then
    { r1.2 with noopMessages := r1.2.noopMessages + 1 }
  else
    let r2 := createChangeset env r1.2
    { r2.2 with
        savedNodes := r2.2.savedNodes ++
          [({ h.ToNode with Changeset := r2.1.ID }, r2.1.ID)] }

/-- The inner matching loop of `updateOrCreateHydrants`: unconditionally
overwrite `found` with any remote hydrant within the match range. -/
def findMatch (env : Env) (h : hydrant) (avail : List hydrant) : Option hydrant :=
  avail.foldl
    (fun found a =>
      if env.dist h a ≤ (env.cfg.MachRange : ℚ) / 1000 then some a else found)
    none

/-- The diameter merge rule of `updateOrCreateHydrants`: an unknown local
diameter adopts a known remote one before comparing. -/
def mergeDiameter (h found : hydrant) : hydrant :=
  if h.Diameter = 0 ∧ found.Diameter > 0
  then { h with Diameter := found.Diameter } else h

/-- The body of the `updateOrCreateHydrants` loop for one local hydrant:
create when unmatched, skip when the merged attributes agree, otherwise
update under the matched hydrant's identity. -/
def processHydrant (env : Env) (avail : List hydrant) (h : hydrant)
    (st : RunState) : RunState :=
  match findMatch env h avail with
  | none => sendNode env h st
  | some found =>
      let h1 := mergeDiameter h found
      if found.NeedsUpdate h1 then
        sendNode env { h1 with ID := found.ID, Version := found.Version } st
      else st

/-- Embeds `updateOrCreateHydrants` (src/unnamed/part_002) as a whole
run starting from process start (global `changeset` nil). -/
def runAll (env : Env) (avail hydrants : List hydrant) : RunState :=
  hydrants.foldl (fun st h => processHydrant env avail h st) initState

/-- The per-hydrant decision of the loop, read off its branch structure
(spec §4.4's `(local, matched-remote?) → Decision` view). -/
inductive Decision where
  | create
  | update
  | noop
deriving DecidableEq, Repr

/-- Which of create/update/no-op the loop body performs for `h`. -/
def decisionKind (env : Env) (avail : List hydrant) (h : hydrant) : Decision :=
  match findMatch env h avail with
  | none => .create
  | some found =>
      if found.NeedsUpdate (mergeDiameter h found) then .update else .noop

/-! ## Correctness of the comment-code matcher -/

theorem digit_toNat_bounds {c : Char} (h : c.isDigit = true) :
    48 ≤ c.toNat ∧ c.toNat ≤ 57 := by
  simp [Char.isDigit] at h
  exact h

theorem matchTail_isSome_iff (a b : Char) (rest : List Char) :
    (matchTail a b rest).isSome ↔
      ((∃ r', rest = '?' :: r') ∨
       ∃ d1 d2 r2, rest = d1 :: d2 :: r2 ∧ d1.isDigit ∧ d2.isDigit) := by
  cases rest with
  | nil => simp [matchTail]
  | cons c rest1 =>
    cases rest1 with
    | nil =>
      by_cases hc : c = '?'
      · subst hc; simp [matchTail]
      · simp [matchTail, hc]
    | cons d2 rest2 =>
      by_cases hc : c = '?'
      · subst hc; simp [matchTail]
      · by_cases hcd : c.isDigit = true
        · by_cases hd2 : d2.isDigit = true
          · cases rest2 with
            | nil =>
              simp [matchTail, hc, hcd, hd2]
              exact ⟨c, d2, ⟨rfl, rfl⟩, hcd, hd2⟩
            | cons d3 rest3 =>
              by_cases hd3 : d3.isDigit = true
              · simp [matchTail, hc, hcd, hd2, hd3]
                exact ⟨c, d2, ⟨rfl, rfl⟩, hcd, hd2⟩
              · simp [matchTail, hc, hcd, hd2, hd3]
                exact ⟨c, d2, ⟨rfl, rfl⟩, hcd, hd2⟩
          · simp [matchTail, hc, hcd, hd2]
        · simp [matchTail, hc, hcd]

theorem matchCodeAt_eq (a b : Char) (rest : List Char) :
    matchCodeAt (a :: b :: rest) =
      if isPosChar a && isTypChar b then matchTail a b rest else none := rfl

theorem matchCodeAt_isSome_iff (l : List Char) :
    (matchCodeAt l).isSome ↔
      ∃ a b rest, l = a :: b :: rest ∧ isPosChar a ∧ isTypChar b ∧
        ((∃ r', rest = '?' :: r') ∨
         ∃ d1 d2 r2, rest = d1 :: d2 :: r2 ∧ d1.isDigit ∧ d2.isDigit) := by
  cases l with
  | nil => simp [matchCodeAt]
  | cons a t =>
    cases t with
    | nil => simp [matchCodeAt]
    | cons b rest =>
      by_cases hab : (isPosChar a && isTypChar b) = true
      · rw [Bool.and_eq_true] at hab
        obtain ⟨ha, hb⟩ := hab
        have hab' : (isPosChar a && isTypChar b) = true := by
          rw [Bool.and_eq_true]; exact ⟨ha, hb⟩
        rw [matchCodeAt_eq, if_pos hab', matchTail_isSome_iff]
        constructor
        · intro h
          exact ⟨a, b, rest, rfl, ha, hb, h⟩
        · rintro ⟨a', b', rest', heq, _, _, h⟩
          injection heq with h1 heq
          injection heq with h2 h3
          subst h1; subst h2; subst h3
          exact h
      · rw [matchCodeAt_eq, if_neg hab]
        simp only [Option.isSome_none, Bool.false_eq_true, false_iff]
        rintro ⟨a', b', rest', heq, ha', hb', _⟩
        injection heq with h1 heq
        injection heq with h2 h3
        subst h1; subst h2
        exact hab (by rw [Bool.and_eq_true]; exact ⟨ha', hb'⟩)

theorem findCode_eq (c : Char) (rest : List Char) :
    findCode (c :: rest) =
      match matchCodeAt (c :: rest) with
      | some r => some r
      | none => findCode rest := rfl

/-- The matcher finds a match exactly when the comment contains the code
in the spec's sense. -/
theorem findCode_isSome_iff (l : List Char) : (findCode l).isSome ↔ hasCode l := by
  induction l with
  | nil =>
    simp only [findCode, Option.isSome_none, Bool.false_eq_true, false_iff]
    rintro ⟨pre, a, b, rest, heq, _⟩
    simp at heq
  | cons c rest ih =>
    rw [findCode_eq]
    cases hm : matchCodeAt (c :: rest) with
    | some r =>
      simp only [Option.isSome_some, true_iff]
      have := matchCodeAt_isSome_iff (c :: rest) |>.mp (by rw [hm]; rfl)
      obtain ⟨a, b, rest', heq, ha, hb, hr⟩ := this
      exact ⟨[], a, b, rest', heq, ha, hb, hr⟩
    | none =>
      simp only
      rw [ih]
      constructor
      · rintro ⟨pre, a, b, rest', heq, ha, hb, hr⟩
        exact ⟨c :: pre, a, b, rest', by rw [heq]; rfl, ha, hb, hr⟩
      · rintro ⟨pre, a, b, rest', heq, ha, hb, hr⟩
        cases pre with
        | nil =>
          exfalso
          have : (matchCodeAt (c :: rest)).isSome := by
            rw [matchCodeAt_isSome_iff]
            exact ⟨a, b, rest', heq, ha, hb, hr⟩
          rw [hm] at this
          exact Bool.false_ne_true this
        | cons c' pre' =>
          injection heq with h1 h2
          exact ⟨pre', a, b, rest', h2, ha, hb, hr⟩

instance hasCodeDecidable : DecidablePred hasCode := fun l =>
  decidable_of_iff ((findCode l).isSome = true) (findCode_isSome_iff l)

/-- A digit run accepted by the matcher parses with `parseInt`. -/
theorem parseInt_of_digit_chars (cs : List Char) (hne : cs ≠ [])
    (hd : ∀ c ∈ cs, c.isDigit) (hb : (digitsVal cs : Int) ≤ int64Max) :
    parseInt ⟨cs⟩ = some ((digitsVal cs : Int)) := by
  obtain ⟨c, cs', rfl⟩ := List.exists_cons_of_ne_nil hne
  have hc := digit_toNat_bounds (hd c (by simp))
  have hplus : ('+').toNat = 43 := rfl
  have hminus : ('-').toNat = 45 := rfl
  rw [parseInt_mk,
      if_neg (by intro h; subst h; rw [hplus] at hc; omega),
      if_neg (by intro h; subst h; rw [hminus] at hc; omega)]
  unfold parseIntPos parseNatDigits
  rw [if_pos ⟨by simp, hd⟩]
  simp [hb]

/-- Shape of the third submatch produced by `matchTail`: the literal `?`
or a run of two or three digits (value at most 999). -/
theorem matchTail_result (a b : Char) (rest : List Char) (m1 m2 m3 : String)
    (h : matchTail a b rest = some (m1, m2, m3)) :
    m3 = "?" ∨
    (m3.data ≠ [] ∧ (∀ c ∈ m3.data, c.isDigit) ∧ digitsVal m3.data ≤ 999) := by
  cases rest with
  | nil => simp [matchTail] at h
  | cons c rest1 =>
    by_cases hc : c = '?'
    · subst hc
      simp [matchTail] at h
      left
      exact h.2.2.symm
    · by_cases hcd : c.isDigit = true
      · cases rest1 with
        | nil => simp [matchTail, hc, hcd] at h
        | cons d2 rest2 =>
          by_cases hd2 : d2.isDigit = true
          · have hcb := digit_toNat_bounds hcd
            have hd2b := digit_toNat_bounds hd2
            cases rest2 with
            | nil =>
              simp [matchTail, hc, hcd, hd2] at h
              right
              rw [← h.2.2]
              refine ⟨by simp, ?_, ?_⟩
              · intro x hx
                simp at hx
                rcases hx with rfl | rfl
                · exact hcd
                · exact hd2
              · simp [digitsVal]
                omega
            | cons d3 rest3 =>
              by_cases hd3 : d3.isDigit = true
              · have hd3b := digit_toNat_bounds hd3
                simp [matchTail, hc, hcd, hd2, hd3] at h
                right
                rw [← h.2.2]
                refine ⟨by simp, ?_, ?_⟩
                · intro x hx
                  simp at hx
                  rcases hx with rfl | rfl | rfl
                  · exact hcd
                  · exact hd2
                  · exact hd3
                · simp [digitsVal]
                  omega
              · simp [matchTail, hc, hcd, hd2, hd3] at h
                right
                rw [← h.2.2]
                refine ⟨by simp, ?_, ?_⟩
                · intro x hx
                  simp at hx
                  rcases hx with rfl | rfl
                  · exact hcd
                  · exact hd2
                · simp [digitsVal]
                  omega
          · simp [matchTail, hc, hcd, hd2] at h
      · simp [matchTail, hc, hcd] at h

/-- Shape of the third submatch produced by `matchCodeAt`. -/
theorem matchCodeAt_result (l : List Char) (m1 m2 m3 : String)
    (h : matchCodeAt l = some (m1, m2, m3)) :
    m3 = "?" ∨
    (m3.data ≠ [] ∧ (∀ c ∈ m3.data, c.isDigit) ∧ digitsVal m3.data ≤ 999) := by
  cases l with
  | nil => simp [matchCodeAt] at h
  | cons a t =>
    cases t with
    | nil => simp [matchCodeAt] at h
    | cons b rest =>
      rw [matchCodeAt_eq] at h
      by_cases hab : (isPosChar a && isTypChar b) = true
      · rw [if_pos hab] at h
        exact matchTail_result a b rest m1 m2 m3 h
      · rw [if_neg hab] at h
        simp at h

/-- Shape of the third submatch produced by `findCode`. -/
theorem findCode_result (l : List Char) (m1 m2 m3 : String)
    (h : findCode l = some (m1, m2, m3)) :
    m3 = "?" ∨
    (m3.data ≠ [] ∧ (∀ c ∈ m3.data, c.isDigit) ∧ digitsVal m3.data ≤ 999) := by
  induction l with
  | nil => simp [findCode] at h
  | cons c rest ih =>
    rw [findCode_eq] at h
    cases hm : matchCodeAt (c :: rest) with
    | some r =>
      rw [hm] at h
      injection h with h
      subst h
      exact matchCodeAt_result (c :: rest) m1 m2 m3 hm
    | none =>
      rw [hm] at h
      exact ih h

/-! ## Claim theorems: waypoint decoding -/

/-- C6: for every waypoint whose comment contains the fixed code (one
letter of SPLG, one of UOWP, then a question mark or 2-3 digits, anywhere
in the text), decoding succeeds and returns a hydrant whose position and
type come from the fixed lookup tables, whose diameter is the parsed
integer (or 0 for the question mark), whose id and version are unset,
whose coordinates are the waypoint's rounded to 7 decimal digits, and
whose pressure is the configured constant. -/
theorem C6_waypoint_decode_success (cfg : Config) (wp : Waypoint)
    (hc : hasCode wp.Comment.data) :
    ∃ m1 m2 m3 hy,
      findCode wp.Comment.data = some (m1, m2, m3) ∧
      parseWaypoint cfg wp = .ok hy ∧
      hy.ID = 0 ∧ hy.Version = 0 ∧ hy.Name = wp.Name ∧
      hy.Latitude = roundPrec wp.Latitude 7 ∧
      hy.Longitude = roundPrec wp.Longitude 7 ∧
      hy.Pressure = cfg.Pressure ∧
      hy.Position = hydrantPositions m1 ∧
      hy.«Type» = hydrantTypes m2 ∧
      ((m3 = "?" ∧ hy.Diameter = 0) ∨
       (m3 ≠ "?" ∧ parseInt m3 = some hy.Diameter)) := by
  have hsome : (findCode wp.Comment.data).isSome := (findCode_isSome_iff _).mpr hc
  obtain ⟨⟨m1, m2, m3⟩, hm⟩ := Option.isSome_iff_exists.mp hsome
  rcases findCode_result _ _ _ _ hm with hq | ⟨hne, hdig, hb⟩
  · subst hq
    have hpw : parseWaypoint cfg wp = .ok (waypointHydrant cfg wp m1 m2) := by
      unfold parseWaypoint
      rw [hm]
      simp
    exact ⟨m1, m2, "?", waypointHydrant cfg wp m1 m2, hm, hpw, rfl, rfl, rfl,
      rfl, rfl, rfl, rfl, rfl, Or.inl ⟨rfl, rfl⟩⟩
  · have hm3ne : m3 ≠ "?" := by
      intro he
      subst he
      exact absurd (hdig '?' (by simp)) (by decide)
    have hm3 : (⟨m3.data⟩ : String) = m3 := rfl
    have hp : parseInt m3 = some ((digitsVal m3.data : Int)) := by
      rw [← hm3]
      refine parseInt_of_digit_chars m3.data hne hdig ?_
      have h9 : (digitsVal m3.data : Int) ≤ 999 := by exact_mod_cast hb
      refine le_trans h9 (by norm_num [int64Max])
    have hpw : parseWaypoint cfg wp =
        .ok { waypointHydrant cfg wp m1 m2 with Diameter := (digitsVal m3.data : Int) } := by
      unfold parseWaypoint
      rw [hm]
      simp only [if_neg hm3ne, hp]
    exact ⟨m1, m2, m3,
      { waypointHydrant cfg wp m1 m2 with Diameter := (digitsVal m3.data : Int) },
      hm, hpw, rfl, rfl, rfl, rfl, rfl, rfl, rfl, rfl, Or.inr ⟨hm3ne, hp⟩⟩

/-- A concrete configuration for witnesses: the flag defaults of
src/unnamed/part_002 (match range 5 m, pressure 4), writes enabled. -/
def cfg0 : Config := { MachRange := 5, NoOp := false, Pressure := 4 }

/-- Witness for C6 at the README's example comment code `SU100`. -/
theorem C6_witness :
    hasCode (Waypoint.Comment ⟨53, 9, "027", "05-MAI-16 SU100"⟩).data ∧
    (∃ m1 m2 m3 hy,
      findCode (Waypoint.Comment ⟨53, 9, "027", "05-MAI-16 SU100"⟩).data
        = some (m1, m2, m3) ∧
      parseWaypoint cfg0 ⟨53, 9, "027", "05-MAI-16 SU100"⟩ = .ok hy ∧
      hy.ID = 0 ∧ hy.Version = 0 ∧ hy.Name = (⟨53, 9, "027", "05-MAI-16 SU100"⟩ : Waypoint).Name ∧
      hy.Latitude = roundPrec (⟨53, 9, "027", "05-MAI-16 SU100"⟩ : Waypoint).Latitude 7 ∧
      hy.Longitude = roundPrec (⟨53, 9, "027", "05-MAI-16 SU100"⟩ : Waypoint).Longitude 7 ∧
      hy.Pressure = cfg0.Pressure ∧
      hy.Position = hydrantPositions m1 ∧
      hy.«Type» = hydrantTypes m2 ∧
      ((m3 = "?" ∧ hy.Diameter = 0) ∨
       (m3 ≠ "?" ∧ parseInt m3 = some hy.Diameter))) :=
  ⟨by decide, C6_waypoint_decode_success cfg0 ⟨53, 9, "027", "05-MAI-16 SU100"⟩ (by decide)⟩

/-- C8: for every waypoint whose comment does not contain the code
pattern, decoding fails with the dedicated "wrong GPX comment" error
value, which is distinct from every other failure, and never with any
other error. -/
theorem C8_no_code_dedicated_error (cfg : Config) (wp : Waypoint)
    (hnc : ¬ hasCode wp.Comment.data) :
    parseWaypoint cfg wp = .error .wrongGPXComment ∧
    (∀ s, HydrantError.wrongGPXComment ≠ HydrantError.intParseError s) ∧
    HydrantError.wrongGPXComment ≠ HydrantError.notAFireHydrant := by
  have hnone : findCode wp.Comment.data = none := by
    cases hf : findCode wp.Comment.data with
    | none => rfl
    | some r =>
      exact absurd ((findCode_isSome_iff _).mp (by rw [hf]; rfl)) hnc
  refine ⟨?_, ?_, ?_⟩
  · unfold parseWaypoint
    rw [hnone]
  · intro s h
    cases h
  · intro h
    cases h

/-- Witness for C8 at a comment without any code. -/
theorem C8_witness :
    ¬ hasCode (Waypoint.Comment ⟨53, 9, "w", "just a note"⟩).data ∧
    (parseWaypoint cfg0 ⟨53, 9, "w", "just a note"⟩ = .error .wrongGPXComment ∧
     (∀ s, HydrantError.wrongGPXComment ≠ HydrantError.intParseError s) ∧
     HydrantError.wrongGPXComment ≠ HydrantError.notAFireHydrant) :=
  ⟨by decide, C8_no_code_dedicated_error cfg0 ⟨53, 9, "w", "just a note"⟩ (by decide)⟩

/-! ## Claim theorems: remote-node decoding -/

theorem fromNodeTags_cons (t : osm.Tag) (rest : List osm.Tag) (h : hydrant)
    (valid : Bool) :
    fromNodeTags (t :: rest) h valid =
      (if t.Key = "emergency" then
        fromNodeTags rest h (t.Value == "fire_hydrant")
      else if t.Key = "fire_hydrant:diameter" then
        match parseInt t.Value with
        | none => .error (.intParseError t.Value)
        | some d => fromNodeTags rest { h with Diameter := d } valid
      else if t.Key = "fire_hydrant:position" then
        fromNodeTags rest { h with Position := t.Value } valid
      else if t.Key = "fire_hydrant:pressure" then
        match parseInt t.Value with
        | none => .error (.intParseError t.Value)
        | some p => fromNodeTags rest { h with Pressure := p } valid
      else if t.Key = "fire_hydrant:type" then
        fromNodeTags rest { h with «Type» := t.Value } valid
      else
        fromNodeTags rest h valid) := rfl

/-- Without an `emergency=fire_hydrant` tag and with all diameter and
pressure tags parsing, the tag loop completes with the valid flag still
false. -/
theorem fromNodeTags_no_valid (tags : List osm.Tag)
    (hno : ∀ t ∈ tags, ¬(t.Key = "emergency" ∧ t.Value = "fire_hydrant"))
    (hok : ∀ t ∈ tags,
      (t.Key = "fire_hydrant:diameter" ∨ t.Key = "fire_hydrant:pressure") →
      (parseInt t.Value).isSome) :
    ∀ h, ∃ h', fromNodeTags tags h false = .ok (h', false) := by
  induction tags with
  | nil => intro h; exact ⟨h, rfl⟩
  | cons t rest ih =>
    intro h
    have hnoR : ∀ t' ∈ rest, ¬(t'.Key = "emergency" ∧ t'.Value = "fire_hydrant") :=
      fun t' ht' => hno t' (List.mem_cons_of_mem _ ht')
    have hokR : ∀ t' ∈ rest,
        (t'.Key = "fire_hydrant:diameter" ∨ t'.Key = "fire_hydrant:pressure") →
        (parseInt t'.Value).isSome :=
      fun t' ht' => hok t' (List.mem_cons_of_mem _ ht')
    rw [fromNodeTags_cons]
    by_cases h1 : t.Key = "emergency"
    · rw [if_pos h1]
      have hv : (t.Value == "fire_hydrant") = false := by
        have hcon := hno t (by simp)
        rw [beq_eq_false_iff_ne]
        intro hveq
        exact hcon ⟨h1, hveq⟩
      rw [hv]
      exact ih hnoR hokR h
    · rw [if_neg h1]
      by_cases h2 : t.Key = "fire_hydrant:diameter"
      · rw [if_pos h2]
        obtain ⟨d, hd⟩ :=
          Option.isSome_iff_exists.mp (hok t (by simp) (Or.inl h2))
        rw [hd]
        exact ih hnoR hokR _
      · rw [if_neg h2]
        by_cases h3 : t.Key = "fire_hydrant:position"
        · rw [if_pos h3]
          exact ih hnoR hokR _
        · rw [if_neg h3]
          by_cases h4 : t.Key = "fire_hydrant:pressure"
          · rw [if_pos h4]
            obtain ⟨p, hp⟩ :=
              Option.isSome_iff_exists.mp (hok t (by simp) (Or.inr h4))
            rw [hp]
            exact ih hnoR hokR _
          · rw [if_neg h4]
            by_cases h5 : t.Key = "fire_hydrant:type"
            · rw [if_pos h5]
              exact ih hnoR hokR _
            · rw [if_neg h5]
              exact ih hnoR hokR h

/-- A malformed diameter or pressure tag anywhere in the tag list makes
the tag loop fail with a parse error. -/
theorem fromNodeTags_parse_error (tags : List osm.Tag)
    (hex : ∃ t ∈ tags,
      (t.Key = "fire_hydrant:diameter" ∨ t.Key = "fire_hydrant:pressure") ∧
      parseInt t.Value = none) :
    ∀ h valid, ∃ s, parseInt s = none ∧
      fromNodeTags tags h valid = .error (.intParseError s) := by
  induction tags with
  | nil =>
    obtain ⟨t, ht, _⟩ := hex
    simp at ht
  | cons t rest ih =>
    obtain ⟨t', ht', hdp, hpe⟩ := hex
    intro h valid
    rw [fromNodeTags_cons]
    by_cases h1 : t.Key = "emergency"
    · rw [if_pos h1]
      have hmem : t' ∈ rest := by
        rcases List.mem_cons.mp ht' with rfl | hm
        · rcases hdp with hk | hk <;> (rw [h1] at hk; simp at hk)
        · exact hm
      exact ih ⟨t', hmem, hdp, hpe⟩ h _
    · rw [if_neg h1]
      by_cases h2 : t.Key = "fire_hydrant:diameter"
      · rw [if_pos h2]
        cases hpv : parseInt t.Value with
        | none => exact ⟨t.Value, hpv, rfl⟩
        | some d =>
          have hmem : t' ∈ rest := by
            rcases List.mem_cons.mp ht' with rfl | hm
            · rw [hpe] at hpv; cases hpv
            · exact hm
          exact ih ⟨t', hmem, hdp, hpe⟩ _ valid
      · rw [if_neg h2]
        by_cases h3 : t.Key = "fire_hydrant:position"
        · rw [if_pos h3]
          have hmem : t' ∈ rest := by
            rcases List.mem_cons.mp ht' with rfl | hm
            · rcases hdp with hk | hk <;> (rw [h3] at hk; simp at hk)
            · exact hm
          exact ih ⟨t', hmem, hdp, hpe⟩ _ valid
        · rw [if_neg h3]
          by_cases h4 : t.Key = "fire_hydrant:pressure"
          · rw [if_pos h4]
            cases hpv : parseInt t.Value with
            | none => exact ⟨t.Value, hpv, rfl⟩
            | some p =>
              have hmem : t' ∈ rest := by
                rcases List.mem_cons.mp ht' with rfl | hm
                · rw [hpe] at hpv; cases hpv
                · exact hm
              exact ih ⟨t', hmem, hdp, hpe⟩ _ valid
          · rw [if_neg h4]
            by_cases h5 : t.Key = "fire_hydrant:type"
            · rw [if_pos h5]
              have hmem : t' ∈ rest := by
                rcases List.mem_cons.mp ht' with rfl | hm
                · rcases hdp with hk | hk <;> (rw [h5] at hk; simp at hk)
                · exact hm
              exact ih ⟨t', hmem, hdp, hpe⟩ _ valid
            · rw [if_neg h5]
              have hmem : t' ∈ rest := by
                rcases List.mem_cons.mp ht' with rfl | hm
                · rcases hdp with hk | hk
                  · exact absurd hk h2
                  · exact absurd hk h4
                · exact hm
              exact ih ⟨t', hmem, hdp, hpe⟩ h valid

/-- A remote node lacking any `emergency` tag but carrying a malformed
`fire_hydrant:diameter` tag. -/
def nodeBad : osm.Node :=
  { ID := 1, Version := 2, Changeset := 0, User := "", UID := 0
    Latitude := 1, Longitude := 2
    Tags := [⟨"fire_hydrant:diameter", "abc"⟩] }

/-- C7 counterexample: `nodeBad` lacks a tag `emergency=fire_hydrant`,
yet decoding yields the hard parse error, not the "not a hydrant"
classification — the tag loop hits the malformed diameter tag before the
classification check. -/
theorem C7_counterexample :
    (∀ t ∈ nodeBad.Tags, ¬(t.Key = "emergency" ∧ t.Value = "fire_hydrant")) ∧
    fromNode nodeBad = .error (.intParseError "abc") ∧
    fromNode nodeBad ≠ .error .notAFireHydrant := by
  refine ⟨by decide, rfl, ?_⟩
  intro h
  rw [show fromNode nodeBad = .error (.intParseError "abc") from rfl] at h
  exact absurd (Except.error.inj h) (by decide)

/-- C7 (amended): a remote node lacking `emergency=fire_hydrant` decodes
to the "not a hydrant" classification provided all of its diameter and
pressure tag values parse as integers; and every node with a malformed
diameter or pressure tag value yields a hard parse error (whether or not
the hydrant tag is present). -/
theorem C7_remote_decode_classification (n : osm.Node) :
    ((∀ t ∈ n.Tags, ¬(t.Key = "emergency" ∧ t.Value = "fire_hydrant")) →
     (∀ t ∈ n.Tags,
        (t.Key = "fire_hydrant:diameter" ∨ t.Key = "fire_hydrant:pressure") →
        (parseInt t.Value).isSome) →
     fromNode n = .error .notAFireHydrant)
  ∧ ((∃ t ∈ n.Tags,
        (t.Key = "fire_hydrant:diameter" ∨ t.Key = "fire_hydrant:pressure") ∧
        parseInt t.Value = none) →
     ∃ s, parseInt s = none ∧ fromNode n = .error (.intParseError s)) := by
  constructor
  · intro hno hok
    obtain ⟨h', he⟩ := fromNodeTags_no_valid n.Tags hno hok (nodeHydrant n)
    unfold fromNode
    rw [he]
    simp
  · intro hex
    obtain ⟨s, hs, he⟩ := fromNodeTags_parse_error n.Tags hex (nodeHydrant n) false
    refine ⟨s, hs, ?_⟩
    unfold fromNode
    rw [he]

/-- A remote node lacking the hydrant tag whose numeric tags all parse. -/
def nodePlain : osm.Node :=
  { ID := 3, Version := 1, Changeset := 0, User := "", UID := 0
    Latitude := 1, Longitude := 2
    Tags := [⟨"operator", "sw"⟩, ⟨"fire_hydrant:diameter", "100"⟩] }

/-- Witness for the amended C7 at two concrete nodes. -/
theorem C7_witness :
    (fromNode nodePlain = .error .notAFireHydrant) ∧
    (∃ s, parseInt s = none ∧ fromNode nodeBad = .error (.intParseError s)) :=
  ⟨(C7_remote_decode_classification nodePlain).1 (by decide) (by decide),
   (C7_remote_decode_classification nodeBad).2 (by decide)⟩

/-! ## Claim theorems: node encode/decode round trip -/

/-- C10: round trip at the node encoding boundary.  For every hydrant
with a nonnegative diameter (its `int64` typing made explicit as range
hypotheses), `fromNode` after `ToNode` succeeds — the
`emergency=fire_hydrant` tag is always emitted — and recovers the
hydrant exactly except for the `Name` field, which comes back empty; a
zero diameter round-trips through omission of the diameter tag. -/
theorem C10_node_roundtrip (h : hydrant)
    (hd0 : 0 ≤ h.Diameter) (hdhi : h.Diameter ≤ int64Max)
    (hplo : int64Min ≤ h.Pressure) (hphi : h.Pressure ≤ int64Max) :
    fromNode h.ToNode = .ok { h with Name := "" } ∧
    (h.Diameter = 0 → ∀ t ∈ h.ToNode.Tags, t.Key ≠ "fire_hydrant:diameter") := by
  have hpp : parseInt (formatInt h.Pressure) = some h.Pressure :=
    parseInt_formatInt _ hplo hphi
  constructor
  · rcases eq_or_lt_of_le hd0 with hz | hpos
    · have hz' : ¬ (h.Diameter > 0) := by omega
      have htags : h.ToNode.Tags =
          [⟨"emergency", "fire_hydrant"⟩,
           ⟨"fire_hydrant:position", h.Position⟩,
           ⟨"fire_hydrant:pressure", formatInt h.Pressure⟩,
           ⟨"fire_hydrant:type", h.«Type»⟩] := by
        simp [hydrant.ToNode, hz']
      unfold fromNode
      rw [htags]
      simp [fromNodeTags_cons, hpp, nodeHydrant, hydrant.ToNode]
      cases h
      simp_all
      rfl
    · have hd : parseInt (formatInt h.Diameter) = some h.Diameter :=
        parseInt_formatInt _ (le_trans (by norm_num [int64Min]) hd0) hdhi
      have htags : h.ToNode.Tags =
          [⟨"emergency", "fire_hydrant"⟩,
           ⟨"fire_hydrant:diameter", formatInt h.Diameter⟩,
           ⟨"fire_hydrant:position", h.Position⟩,
           ⟨"fire_hydrant:pressure", formatInt h.Pressure⟩,
           ⟨"fire_hydrant:type", h.«Type»⟩] := by
        simp [hydrant.ToNode, hpos]
      unfold fromNode
      rw [htags]
      simp [fromNodeTags_cons, hpp, hd, nodeHydrant, hydrant.ToNode]
      rfl
  · intro h0 t ht
    have hz' : ¬ (h.Diameter > 0) := by omega
    have htags : h.ToNode.Tags =
        [⟨"emergency", "fire_hydrant"⟩,
         ⟨"fire_hydrant:position", h.Position⟩,
         ⟨"fire_hydrant:pressure", formatInt h.Pressure⟩,
         ⟨"fire_hydrant:type", h.«Type»⟩] := by
      simp [hydrant.ToNode, hz']
    rw [htags] at ht
    simp at ht
    rcases ht with rfl | rfl | rfl | rfl <;> simp

/-! ## Claim theorems: proximity matching and reconciliation -/

theorem processHydrant_unmatched (env : Env) (avail : List hydrant)
    (h : hydrant) (st : RunState) (hm : findMatch env h avail = none) :
    processHydrant env avail h st = sendNode env h st := by
  unfold processHydrant
  rw [hm]

theorem processHydrant_matched (env : Env) (avail : List hydrant)
    (h found : hydrant) (st : RunState) (hm : findMatch env h avail = some found) :
    processHydrant env avail h st =
      if found.NeedsUpdate (mergeDiameter h found) then
        sendNode env
          { mergeDiameter h found with ID := found.ID, Version := found.Version } st
      else st := by
  unfold processHydrant
  rw [hm]

theorem decisionKind_unmatched (env : Env) (avail : List hydrant) (h : hydrant)
    (hm : findMatch env h avail = none) : decisionKind env avail h = .create := by
  unfold decisionKind
  rw [hm]

theorem decisionKind_matched (env : Env) (avail : List hydrant) (h found : hydrant)
    (hm : findMatch env h avail = some found) :
    decisionKind env avail h =
      if found.NeedsUpdate (mergeDiameter h found) then .update else .noop := by
  unfold decisionKind
  rw [hm]

/-- C1: for every matched pair, the loop first applies the diameter merge
rule and then, when diameter, position, pressure and type all agree after
the merge, performs a no-op: the run state — changeset, call counters and
the record of written nodes — is left untouched, so no write call is
made and the remote entity is not changed. -/
theorem C1_matched_agreeing_pair_noop (env : Env) (avail : List hydrant)
    (h r : hydrant) (st : RunState)
    (hm : findMatch env h avail = some r)
    (hagree : (mergeDiameter h r).Diameter = r.Diameter ∧
              (mergeDiameter h r).Position = r.Position ∧
              (mergeDiameter h r).Pressure = r.Pressure ∧
              (mergeDiameter h r).«Type» = r.«Type») :
    processHydrant env avail h st = st := by
  obtain ⟨h1, h2, h3, h4⟩ := hagree
  have hnu : r.NeedsUpdate (mergeDiameter h r) = false := by
    unfold hydrant.NeedsUpdate
    rw [h1, h2, h3, h4]
    simp
  rw [processHydrant_matched env avail h r st hm, hnu]
  simp

/-- A local hydrant with unknown diameter agreeing with a known remote. -/
def hLoc : hydrant :=
  { ID := 0, Name := "l", Latitude := 1, Longitude := 2, Diameter := 0
    Position := "sidewalk", Pressure := 4, «Type» := "underground", Version := 0 }

/-- The matching remote hydrant with diameter 100. -/
def rRem : hydrant :=
  { ID := 5, Name := "", Latitude := 1, Longitude := 2, Diameter := 100
    Position := "sidewalk", Pressure := 4, «Type» := "underground", Version := 3 }

/-- A write-enabled environment with a zero distance function. -/
def env0 : Env := { cfg := cfg0, dist := fun _ _ => 0, freshCsID := 77 }

/-- Witness for C1: local diameter 0, remote diameter 100, all else
equal — the state is untouched. -/
theorem C1_witness :
    findMatch env0 hLoc [rRem] = some rRem ∧
    ((mergeDiameter hLoc rRem).Diameter = rRem.Diameter ∧
     (mergeDiameter hLoc rRem).Position = rRem.Position ∧
     (mergeDiameter hLoc rRem).Pressure = rRem.Pressure ∧
     (mergeDiameter hLoc rRem).«Type» = rRem.«Type») ∧
    processHydrant env0 [rRem] hLoc initState = initState := by
  have hm : findMatch env0 hLoc [rRem] = some rRem := by
    norm_num [findMatch, env0, cfg0]
  have hagree : (mergeDiameter hLoc rRem).Diameter = rRem.Diameter ∧
      (mergeDiameter hLoc rRem).Position = rRem.Position ∧
      (mergeDiameter hLoc rRem).Pressure = rRem.Pressure ∧
      (mergeDiameter hLoc rRem).«Type» = rRem.«Type» := by decide
  exact ⟨hm, hagree, C1_matched_agreeing_pair_noop env0 [rRem] hLoc rRem initState hm hagree⟩

/-- In write-enabled mode one `doNoOp`-wrapped write appends exactly one
node — the hydrant's full encoding, stamped with the changeset id — to
the record of `SaveNode` calls. -/
theorem sendNode_savedNodes (env : Env) (h : hydrant) (st : RunState)
    (hnoop : env.cfg.NoOp = false) :
    ∃ csid, (sendNode env h st).savedNodes =
      st.savedNodes ++ [({ h.ToNode with Changeset := csid }, csid)] := by
  cases hcs : st.changeset with
  | some cs =>
    refine ⟨cs.ID, ?_⟩
    simp [sendNode, createChangeset, hcs, hnoop]
  | none =>
    refine ⟨env.freshCsID, ?_⟩
    simp [sendNode, createChangeset, hcs, hnoop]

/-- C2: for every matched pair whose post-merge attributes differ, the
loop emits an update: it writes exactly one node carrying the remote id
and version and the local hydrant's full attribute set — emergency,
position, pressure, type, and the diameter tag exactly when the (merged)
diameter is positive — as a full replacement tag set. -/
theorem C2_matched_differing_pair_update (env : Env) (avail : List hydrant)
    (h r : hydrant) (st : RunState)
    (hm : findMatch env h avail = some r)
    (hne : r.NeedsUpdate (mergeDiameter h r) = true)
    (hnoop : env.cfg.NoOp = false) :
    ∃ csid n,
      (processHydrant env avail h st).savedNodes = st.savedNodes ++ [(n, csid)] ∧
      n.ID = r.ID ∧ n.Version = r.Version ∧ n.Changeset = csid ∧
      n.Latitude = (mergeDiameter h r).Latitude ∧
      n.Longitude = (mergeDiameter h r).Longitude ∧
      n.Tags =
        [⟨"emergency", "fire_hydrant"⟩] ++
        (if (mergeDiameter h r).Diameter > 0 then
          [⟨"fire_hydrant:diameter", formatInt (mergeDiameter h r).Diameter⟩]
         else []) ++
        [⟨"fire_hydrant:position", (mergeDiameter h r).Position⟩,
         ⟨"fire_hydrant:pressure", formatInt (mergeDiameter h r).Pressure⟩,
         ⟨"fire_hydrant:type", (mergeDiameter h r).«Type»⟩] := by
  rw [processHydrant_matched env avail h r st hm, hne]
  simp only [if_true]
  obtain ⟨csid, hs⟩ := sendNode_savedNodes env
    { mergeDiameter h r with ID := r.ID, Version := r.Version } st hnoop
  exact ⟨csid,
    { ({ mergeDiameter h r with ID := r.ID, Version := r.Version } : hydrant).ToNode
        with Changeset := csid },
    hs, rfl, rfl, rfl, rfl, rfl, rfl⟩

/-- A local hydrant differing from `rRem` in diameter (150 vs 100). -/
def hUp : hydrant :=
  { ID := 0, Name := "l", Latitude := 1, Longitude := 2, Diameter := 150
    Position := "sidewalk", Pressure := 4, «Type» := "underground", Version := 0 }

/-- Witness for C2: local diameter 150, remote diameter 100, others
equal — one node carrying the remote id/version is written. -/
theorem C2_witness :
    findMatch env0 hUp [rRem] = some rRem ∧
    rRem.NeedsUpdate (mergeDiameter hUp rRem) = true ∧
    env0.cfg.NoOp = false ∧
    (∃ csid n,
      (processHydrant env0 [rRem] hUp initState).savedNodes =
        initState.savedNodes ++ [(n, csid)] ∧
      n.ID = rRem.ID ∧ n.Version = rRem.Version ∧ n.Changeset = csid ∧
      n.Latitude = (mergeDiameter hUp rRem).Latitude ∧
      n.Longitude = (mergeDiameter hUp rRem).Longitude ∧
      n.Tags =
        [⟨"emergency", "fire_hydrant"⟩] ++
        (if (mergeDiameter hUp rRem).Diameter > 0 then
          [⟨"fire_hydrant:diameter", formatInt (mergeDiameter hUp rRem).Diameter⟩]
         else []) ++
        [⟨"fire_hydrant:position", (mergeDiameter hUp rRem).Position⟩,
         ⟨"fire_hydrant:pressure", formatInt (mergeDiameter hUp rRem).Pressure⟩,
         ⟨"fire_hydrant:type", (mergeDiameter hUp rRem).«Type»⟩]) := by
  have hm : findMatch env0 hUp [rRem] = some rRem := by
    norm_num [findMatch, env0, cfg0]
  have hne : rRem.NeedsUpdate (mergeDiameter hUp rRem) = true := by decide
  exact ⟨hm, hne, rfl,
    C2_matched_differing_pair_update env0 [rRem] hUp rRem initState hm hne rfl⟩

/-- The inner matching fold keeps the last list element satisfying the
range predicate, falling back to the accumulator. -/
theorem foldl_if_getLast {α : Type} (p : α → Prop) [DecidablePred p]
    (l : List α) (acc : Option α) :
    l.foldl (fun found a => if p a then some a else found) acc =
      match (l.filter fun a => decide (p a)).getLast? with
      | some a => some a
      | none => acc := by
  induction l using List.reverseRecOn generalizing acc with
  | nil => simp
  | append_singleton l x ih =>
    rw [List.foldl_append]
    simp only [List.foldl_cons, List.foldl_nil]
    by_cases hx : p x
    · rw [if_pos hx, List.filter_append, List.filter_singleton,
          decide_eq_true hx, cond_true, List.getLast?_concat]
    · rw [if_neg hx, List.filter_append, List.filter_singleton,
          decide_eq_false hx, cond_false, List.append_nil, ih]

/-- C3: for every local hydrant and every remote list, the matcher
selects the last remote hydrant in the list's given order whose distance
is within the threshold — not necessarily the nearest — and yields no
match exactly when no remote hydrant lies within the threshold. -/
theorem C3_matcher_last_within_threshold (env : Env) (h : hydrant)
    (avail : List hydrant) :
    findMatch env h avail =
      (avail.filter fun a =>
        decide (env.dist h a ≤ (env.cfg.MachRange : ℚ) / 1000)).getLast? ∧
    (findMatch env h avail = none ↔
      ∀ a ∈ avail, ¬ env.dist h a ≤ (env.cfg.MachRange : ℚ) / 1000) := by
  have h1 : findMatch env h avail =
      (avail.filter fun a =>
        decide (env.dist h a ≤ (env.cfg.MachRange : ℚ) / 1000)).getLast? := by
    unfold findMatch
    rw [foldl_if_getLast]
    cases (avail.filter fun a =>
      decide (env.dist h a ≤ (env.cfg.MachRange : ℚ) / 1000)).getLast? <;> rfl
  refine ⟨h1, ?_⟩
  rw [h1, List.getLast?_eq_none_iff, List.filter_eq_nil_iff]
  simp

/-- The changeset-coordinator invariant: the number of `CreateChangeset`
API calls made so far is 1 when the cached changeset exists and 0
before. -/
def ChangesetInv (st : RunState) : Prop :=
  st.createChangesetCalls = if st.changeset.isSome then 1 else 0

theorem sendNode_changeset (env : Env) (h : hydrant) (st : RunState) :
    (sendNode env h st).changeset.isSome ∧
    (sendNode env h st).createChangesetCalls =
      (if st.changeset.isSome then st.createChangesetCalls
       else st.createChangesetCalls + 1) := by
  by_cases hn : env.cfg.NoOp = true <;>
    cases hcs : st.changeset <;>
      simp [sendNode, createChangeset, hcs, hn]

theorem processHydrant_noop (env : Env) (avail : List hydrant) (h : hydrant)
    (st : RunState) (hd : decisionKind env avail h = .noop) :
    processHydrant env avail h st = st := by
  cases hm : findMatch env h avail with
  | none =>
    rw [decisionKind_unmatched env avail h hm] at hd
    cases hd
  | some found =>
    rw [decisionKind_matched env avail h found hm] at hd
    rw [processHydrant_matched env avail h found st hm]
    by_cases hnu : found.NeedsUpdate (mergeDiameter h found) = true
    · rw [if_pos hnu] at hd
      cases hd
    · simp only [Bool.not_eq_true] at hnu
      rw [hnu]
      simp

theorem processHydrant_act (env : Env) (avail : List hydrant) (h : hydrant)
    (st : RunState) (hd : decisionKind env avail h ≠ .noop) :
    (processHydrant env avail h st).changeset.isSome ∧
    (processHydrant env avail h st).createChangesetCalls =
      (if st.changeset.isSome then st.createChangesetCalls
       else st.createChangesetCalls + 1) := by
  cases hm : findMatch env h avail with
  | none =>
    rw [processHydrant_unmatched env avail h st hm]
    exact sendNode_changeset env h st
  | some found =>
    rw [decisionKind_matched env avail h found hm] at hd
    rw [processHydrant_matched env avail h found st hm]
    by_cases hnu : found.NeedsUpdate (mergeDiameter h found) = true
    · rw [if_pos hnu]
      exact sendNode_changeset env _ st
    · simp only [Bool.not_eq_true] at hnu
      rw [hnu] at hd
      simp at hd

theorem processHydrant_inv (env : Env) (avail : List hydrant) (h : hydrant)
    (st : RunState) (hI : ChangesetInv st) :
    ChangesetInv (processHydrant env avail h st) := by
  by_cases hd : decisionKind env avail h = .noop
  · rw [processHydrant_noop env avail h st hd]
    exact hI
  · obtain ⟨h1, h2⟩ := processHydrant_act env avail h st hd
    unfold ChangesetInv at hI ⊢
    rw [h2, if_pos h1]
    by_cases hcs : st.changeset.isSome = true
    · rw [if_pos hcs]
      rw [if_pos hcs] at hI
      exact hI
    · rw [if_neg hcs]
      rw [if_neg hcs] at hI
      omega

theorem processHydrant_mono (env : Env) (avail : List hydrant) (h : hydrant)
    (st : RunState) (hs : st.changeset.isSome) :
    (processHydrant env avail h st).changeset.isSome := by
  by_cases hd : decisionKind env avail h = .noop
  · rw [processHydrant_noop env avail h st hd]
    exact hs
  · exact (processHydrant_act env avail h st hd).1

theorem runFold_inv (env : Env) (avail : List hydrant) (l : List hydrant)
    (st : RunState) (hI : ChangesetInv st) :
    ChangesetInv (l.foldl (fun s h => processHydrant env avail h s) st) := by
  induction l generalizing st with
  | nil => exact hI
  | cons x xs ih => exact ih _ (processHydrant_inv env avail x st hI)

theorem runFold_mono (env : Env) (avail : List hydrant) (l : List hydrant)
    (st : RunState) (hs : st.changeset.isSome) :
    (l.foldl (fun s h => processHydrant env avail h s) st).changeset.isSome := by
  induction l generalizing st with
  | nil => exact hs
  | cons x xs ih => exact ih _ (processHydrant_mono env avail x st hs)

theorem runFold_all_noop (env : Env) (avail : List hydrant) (l : List hydrant)
    (st : RunState) (hall : ∀ h ∈ l, decisionKind env avail h = .noop) :
    l.foldl (fun s h => processHydrant env avail h s) st = st := by
  induction l generalizing st with
  | nil => rfl
  | cons x xs ih =>
    rw [List.foldl_cons, processHydrant_noop env avail x st (hall x (by simp))]
    exact ih st (fun h hm => hall h (List.mem_cons_of_mem _ hm))

theorem runFold_exists_act (env : Env) (avail : List hydrant) (l : List hydrant)
    (st : RunState) (hex : ∃ h ∈ l, decisionKind env avail h ≠ .noop) :
    (l.foldl (fun s h => processHydrant env avail h s) st).changeset.isSome := by
  induction l generalizing st with
  | nil =>
    obtain ⟨h, hm, _⟩ := hex
    simp at hm
  | cons x xs ih =>
    obtain ⟨h, hm, hd⟩ := hex
    rcases List.mem_cons.mp hm with rfl | hm'
    · rw [List.foldl_cons]
      exact runFold_mono env avail xs _ (processHydrant_act env avail h st hd).1
    · rw [List.foldl_cons]
      exact ih _ ⟨h, hm', hd⟩

/-- C4: the changeset is created lazily and at most once per run.  A run
in which every local hydrant is a no-op decision issues no
`CreateChangeset` call; a run with at least one create or update
decision issues exactly one, regardless of how many further create or
update decisions follow. -/
theorem C4_changeset_lazy_at_most_once (env : Env) (avail hydrants : List hydrant) :
    ((∀ h ∈ hydrants, decisionKind env avail h = .noop) →
      (runAll env avail hydrants).createChangesetCalls = 0)
  ∧ ((∃ h ∈ hydrants, decisionKind env avail h ≠ .noop) →
      (runAll env avail hydrants).createChangesetCalls = 1) := by
  constructor
  · intro hall
    unfold runAll
    rw [runFold_all_noop env avail hydrants initState hall]
    rfl
  · intro hex
    have hI : ChangesetInv (runAll env avail hydrants) :=
      runFold_inv env avail hydrants initState (by rfl)
    have hs : (runAll env avail hydrants).changeset.isSome :=
      runFold_exists_act env avail hydrants initState hex
    unfold ChangesetInv at hI
    rw [hI, if_pos hs]

/-- Witness for C4: an all-no-op run makes no `CreateChangeset` call; a
run with one unmatched hydrant makes exactly one. -/
theorem C4_witness :
    (∀ h ∈ [hLoc], decisionKind env0 [rRem] h = .noop) ∧
    (runAll env0 [rRem] [hLoc]).createChangesetCalls = 0 ∧
    (∃ h ∈ [hUp], decisionKind env0 [] h ≠ .noop) ∧
    (runAll env0 [] [hUp]).createChangesetCalls = 1 := by
  have hm : findMatch env0 hLoc [rRem] = some rRem := by
    norm_num [findMatch, env0, cfg0]
  have h1 : ∀ h ∈ [hLoc], decisionKind env0 [rRem] h = .noop := by
    intro h hmem
    rcases List.mem_singleton.mp hmem with rfl
    rw [decisionKind_matched env0 [rRem] hLoc rRem hm]
    have : rRem.NeedsUpdate (mergeDiameter hLoc rRem) = false := by decide
    rw [this]
    rfl
  have h2 : ∃ h ∈ [hUp], decisionKind env0 [] h ≠ .noop := by
    refine ⟨hUp, by simp, ?_⟩
    rw [decisionKind_unmatched env0 [] hUp rfl]
    decide
  exact ⟨h1, (C4_changeset_lazy_at_most_once env0 [rRem] [hLoc]).1 h1,
         h2, (C4_changeset_lazy_at_most_once env0 [] [hUp]).2 h2⟩

/-- A dry-run environment (noop mode on). -/
def envNoop : Env :=
  { cfg := { MachRange := 5, NoOp := true, Pressure := 4 }
    dist := fun _ _ => 0, freshCsID := 42 }

/-- An unmatched local hydrant for the dry-run run. -/
def hNew : hydrant :=
  { ID := 0, Name := "new", Latitude := 1, Longitude := 2, Diameter := 100
    Position := "sidewalk", Pressure := 4, «Type» := "underground", Version := 0 }

/-- C5 (against the claim): in dry-run mode a run with one create
decision issues no `SaveNode` call, but it does issue one real
`CreateChangeset` and one `SaveChangeset` call — Go evaluates the
message argument of `doNoOp`, which contains `createChangeset(osmClient)`,
before `doNoOp` can short-circuit, so dry-run still mutates remote
state.  This evaluates the loop at the failing input. -/
theorem C5_dryrun_still_creates_changeset :
    envNoop.cfg.NoOp = true ∧
    decisionKind envNoop [] hNew = .create ∧
    (runAll envNoop [] [hNew]).savedNodes = [] ∧
    (runAll envNoop [] [hNew]).createChangesetCalls = 1 ∧
    (runAll envNoop [] [hNew]).saveChangesetCalls = 1 :=
  ⟨rfl, rfl, rfl, rfl, rfl⟩

/-! ## Claim theorems: SaveNode version guard -/

/-- C9: `SaveNode` rejects a node with an id but no version before any
request is made (the error return precedes the PUT; the `.ok` payload is
the request), and for every node not violating the precondition the
error branch is not taken and the write proceeds: one PUT to
`/node/<id>` (id set) or `/node/create` (fresh node), with the node's
changeset association set from the passed changeset. -/
theorem C9_savenode_version_guard (n : osm.Node) (cs : osm.Changeset) :
    (n.ID > 0 → n.Version = 0 →
      osm.SaveNode n cs = .error "When an ID is set the version must be present")
  ∧ (¬ (n.ID > 0 ∧ n.Version = 0) →
      osm.SaveNode n cs =
        .ok ((if n.ID > 0 then osm.SavePath.updateNode n.ID
              else osm.SavePath.createNode),
             { n with Changeset := cs.ID })) := by
  constructor
  · intro h1 h2
    unfold osm.SaveNode
    rw [if_pos ⟨h1, h2⟩]
  · intro hn
    unfold osm.SaveNode
    rw [if_neg hn]

/-- A node with id set but version missing. -/
def nodeNoVersion : osm.Node :=
  { ID := 5, Version := 0, Changeset := 0, User := "", UID := 0
    Latitude := 1, Longitude := 2, Tags := [] }

/-- A node with id and version set. -/
def nodeVersioned : osm.Node :=
  { ID := 5, Version := 3, Changeset := 0, User := "", UID := 0
    Latitude := 1, Longitude := 2, Tags := [] }

/-- A changeset for the SaveNode witnesses. -/
def csW : osm.Changeset := { ID := 99, Tags := [] }

/-- Witness for C9 at a version-less and a versioned node. -/
theorem C9_witness :
    osm.SaveNode nodeNoVersion csW =
      .error "When an ID is set the version must be present" ∧
    osm.SaveNode nodeVersioned csW =
      .ok ((if nodeVersioned.ID > 0 then osm.SavePath.updateNode nodeVersioned.ID
            else osm.SavePath.createNode),
           { nodeVersioned with Changeset := csW.ID }) :=
  ⟨(C9_savenode_version_guard nodeNoVersion csW).1 (by decide) rfl,
   (C9_savenode_version_guard nodeVersioned csW).2 (by decide)⟩

/-- A hydrant with all attributes set, for the round-trip witness. -/
def hRT : hydrant :=
  { ID := 7, Name := "wp", Latitude := 1, Longitude := 2, Diameter := 100
    Position := "sidewalk", Pressure := 4, «Type» := "underground", Version := 3 }

/-- Witness for C10 at a fully populated hydrant. -/
theorem C10_witness :
    fromNode hRT.ToNode = .ok { hRT with Name := "" } ∧
    (hRT.Diameter = 0 → ∀ t ∈ hRT.ToNode.Tags, t.Key ≠ "fire_hydrant:diameter") :=
  C10_node_roundtrip hRT (by decide) (by decide) (by decide) (by decide)
